import Mathlib

/-!
# Verification of the HTML-Calculator core (src/script.js)

Shallow embedding of the calculator's expression Builder and Evaluator.

Modelling conventions (stated once, used throughout):

* JavaScript strings are modelled as `List Char`; `str.slice(0,-1)` is
  `List.dropLast`, `str.slice(-1)` (the last character, or `""` when empty)
  is `List.getLast? : Option Char`.
* JavaScript IEEE-754 double arithmetic is idealised as exact rational
  arithmetic, with the non-finite values `Infinity`, `-Infinity` and `NaN`
  modelled explicitly by the `JSNum` type and propagated by the arithmetic
  operations following the JavaScript rules (`1/0 = Infinity`,
  `x/Infinity = 0`, `Infinity - Infinity = NaN`, `0/0 = NaN`, ...).
  Rounding, overflow and the sign of zero are not modelled.
* `Function('"use strict"; return (e)')()` is modelled by a recursive-descent
  parser/evaluator `jsEval` over the JavaScript expression grammar restricted
  to the calculator's character set (numeric literals, unary `+`/`-`, binary
  `+ - * /` with standard precedence and left associativity, parentheses).
  A thrown `SyntaxError`/`TypeError` is modelled by `jsEval` returning `none`.
  Strict mode rejects numeric literals with a leading `0` followed by further
  integer digits (legacy octal), and the parser reproduces that.
* `Number.prototype.toString` is modelled by `numberToString`, following the
  ECMA-262 Number-to-String algorithm on the exact rational value (digits
  `s`, digit count `k`, decimal exponent `n`, fixed notation for
  `-6 < n ≤ 21`, exponential notation otherwise).  For rationals without a
  finite decimal expansion (unreachable from actual double values) the digit
  string is truncated.
-/

/-! ## Character helpers -/

/-- The test `key >= '0' && key <= '9'` of `isNumericKey` (src/script.js). -/
def isNumericKey (c : Char) : Bool := '0' ≤ c && c ≤ '9'

/-- Membership in the regex character class `[+\-*/]`. -/
def isOps4 (c : Char) : Bool := c == '+' || c == '-' || c == '*' || c == '/'

/-- Embedding of `isOperator` (src/script.js): membership in `["+","-","*","/","×","÷"]`. -/
def isOperator (c : Char) : Bool :=
  c == '+' || c == '-' || c == '*' || c == '/' || c == '×' || c == '÷'

/-- The source's `isOperator` applied to `expression.slice(-1)`, which is the empty string
on an empty expression (modelled as `none`): `isOperator("")` is `false`. -/
def isOperatorOpt : Option Char → Bool
  | some c => isOperator c
  | none => false

/-- Whitespace characters matched by the `\s` regex class (the forms that can
occur in the calculator's strings). -/
def isWsChar (c : Char) : Bool := c == ' ' || c == '\t' || c == '\n' || c == '\r'

/-- The alphabet `{0-9, +, -, *, /, (, ), .}` from the specification's data
model for `Expression`. -/
def inBaseAlphabet (c : Char) : Bool :=
  isNumericKey c || c == '+' || c == '-' || c == '*' || c == '/' ||
    c == '(' || c == ')' || c == '.'

/-- The base alphabet extended with the character `e` that
`Number.prototype.toString` produces in exponential notation. -/
def inExtAlphabet (c : Char) : Bool := inBaseAlphabet c || c == 'e'

/-! ## JavaScript numbers -/

/-- A JavaScript number as far as the calculator can observe it: a finite
value (idealised as an exact rational), a signed infinity, or `NaN`. -/
inductive JSNum where
  | finite (q : ℚ)
  | inf (neg : Bool)
  | nan
deriving DecidableEq

/-- JavaScript's `isFinite` predicate. -/
def JSNum.isFinite : JSNum → Bool
  | .finite _ => true
  | _ => false

/-- JavaScript `+` on numbers. -/
def JSNum.add : JSNum → JSNum → JSNum
  | .nan, _ => .nan
  | _, .nan => .nan
  | .inf s, .inf t => if s = t then .inf s else .nan
  | .inf s, .finite _ => .inf s
  | .finite _, .inf t => .inf t
  | .finite a, .finite b => .finite (a + b)

/-- JavaScript `-` on numbers. -/
def JSNum.sub : JSNum → JSNum → JSNum
  | .nan, _ => .nan
  | _, .nan => .nan
  | .inf s, .inf t => if s = t then .nan else .inf s
  | .inf s, .finite _ => .inf s
  | .finite _, .inf t => .inf (!t)
  | .finite a, .finite b => .finite (a - b)

/-- JavaScript `*` on numbers. -/
def JSNum.mul : JSNum → JSNum → JSNum
  | .nan, _ => .nan
  | _, .nan => .nan
  | .inf s, .inf t => .inf (xor s t)
  | .inf s, .finite b => if b = 0 then .nan else .inf (xor s (decide (b < 0)))
  | .finite a, .inf t => if a = 0 then .nan else .inf (xor (decide (a < 0)) t)
  | .finite a, .finite b => .finite (a * b)

/-- JavaScript `/` on numbers (sign of zero not modelled: division of a
nonzero finite value by zero yields the infinity signed by the numerator). -/
def JSNum.div : JSNum → JSNum → JSNum
  | .nan, _ => .nan
  | _, .nan => .nan
  | .inf _, .inf _ => .nan
  | .inf s, .finite b => .inf (xor s (decide (b < 0)))
  | .finite _, .inf _ => .finite 0
  | .finite a, .finite b =>
      if b = 0 then (if a = 0 then .nan else .inf (decide (a < 0)))
      else .finite (a / b)

/-- JavaScript unary `-` on numbers. -/
def JSNum.neg : JSNum → JSNum
  | .nan => .nan
  | .inf s => .inf (!s)
  | .finite a => .finite (-a)

/-! ## The evaluator: `Function('"use strict"; return (e)')()` -/

/-- Value of a digit string (most significant digit first). -/
def digitsToNat (l : List Char) : ℕ :=
  l.foldl (fun n c => 10 * n + (c.toNat - 48)) 0

/-- Parse a JavaScript numeric literal over the calculator's alphabet:
`[0-9]+`, `[0-9]+.[0-9]*` or `.[0-9]+`.  Strict mode rejects an integer part
of two or more digits starting with `0` (legacy octal notation). -/
def parseNumber (l : List Char) : Option (ℚ × List Char) :=
  let ip := l.takeWhile isNumericKey
  let rest1 := l.drop ip.length
  if 2 ≤ ip.length ∧ ip.head? = some '0' then none
  else
    match rest1 with
    | '.' :: r2 =>
        let fp := r2.takeWhile isNumericKey
        let rest2 := r2.drop fp.length
        if ip.isEmpty ∧ fp.isEmpty then none
        else some ((digitsToNat ip : ℚ) + (digitsToNat fp : ℚ) / 10 ^ fp.length, rest2)
    | _ => if ip.isEmpty then none else some ((digitsToNat ip : ℚ), rest1)

mutual

/-- Parse an `AdditiveExpression`: a term followed by `+`/`-` chains. -/
def parseE : ℕ → List Char → Option (JSNum × List Char)
  | 0, _ => none
  | fuel + 1, l =>
      match parseT fuel l with
      | none => none
      | some (v, r) => parseERest fuel v r

/-- Left-associative folding of `+ term` / `- term` continuations. -/
def parseERest : ℕ → JSNum → List Char → Option (JSNum × List Char)
  | 0, _, _ => none
  | fuel + 1, v, l =>
      match l with
      | '+' :: r =>
          (match parseT fuel r with
           | none => none
           | some (w, r2) => parseERest fuel (v.add w) r2)
      | '-' :: r =>
          (match parseT fuel r with
           | none => none
           | some (w, r2) => parseERest fuel (v.sub w) r2)
      | _ => some (v, l)

/-- Parse a `MultiplicativeExpression`: a factor followed by `*`/`/` chains. -/
def parseT : ℕ → List Char → Option (JSNum × List Char)
  | 0, _ => none
  | fuel + 1, l =>
      match parseF fuel l with
      | none => none
      | some (v, r) => parseTRest fuel v r

/-- Left-associative folding of `* factor` / `/ factor` continuations. -/
def parseTRest : ℕ → JSNum → List Char → Option (JSNum × List Char)
  | 0, _, _ => none
  | fuel + 1, v, l =>
      match l with
      | '*' :: r =>
          (match parseF fuel r with
           | none => none
           | some (w, r2) => parseTRest fuel (v.mul w) r2)
      | '/' :: r =>
          (match parseF fuel r with
           | none => none
           | some (w, r2) => parseTRest fuel (v.div w) r2)
      | _ => some (v, l)

/-- Parse a `UnaryExpression`: unary `-`/`+` chains over a literal or a
parenthesised expression. -/
def parseF : ℕ → List Char → Option (JSNum × List Char)
  | 0, _ => none
  | fuel + 1, l =>
      match l with
      | '-' :: r =>
          (match parseF fuel r with
           | none => none
           | some (v, r2) => some (v.neg, r2))
      | '+' :: r => parseF fuel r
      | '(' :: r =>
          (match parseE fuel r with
           | some (v, ')' :: r2) => some (v, r2)
           | _ => none)
      | _ =>
          (match parseNumber l with
           | none => none
           | some (q, r) => some (JSNum.finite q, r))

end

/-- Evaluate a sanitized expression string the way
`Function('"use strict"; return (e)')()` does: `none` models a thrown
exception (syntax error, or a leftover-input form such as a call
expression `"(5)(3)"` whose application throws). -/
def jsEval (l : List Char) : Option JSNum :=
  match parseE (4 * l.length + 8) l with
  | some (v, []) => some v
  | _ => none

/-! ## Structural validation (`isValidExpression`, `validateParentheses`) -/

/-- Holds (as `true`) iff some two adjacent characters both satisfy `p`: the test
`/X{2,}/` for a character class `X`. -/
def hasPair (p : Char → Bool) : List Char → Bool
  | a :: b :: r => (p a && p b) || hasPair p (b :: r)
  | _ => false

/-- Skip a (possibly empty) run of digits. -/
def skipDigits : List Char → List Char
  | [] => []
  | c :: r => if isNumericKey c then skipDigits r else c :: r

/-- Does the list start with a match of `/\d+\.\d*\./` ? -/
def matchesBadDecimal (l : List Char) : Bool :=
  match l with
  | c :: rest =>
      c.isDigit &&
        (match skipDigits rest with
         | '.' :: r2 =>
             (match skipDigits r2 with
              | '.' :: _ => true
              | _ => false)
         | _ => false)
  | [] => false

/-- The test `/\d+\.\d*\./.test(expression)`: a match at any position. -/
def hasBadDecimal : List Char → Bool
  | [] => false
  | c :: rest => matchesBadDecimal (c :: rest) || hasBadDecimal rest

/-- The loop body of `validateParentheses` (src/script.js lines 319-344):
running count with early `false` on a negative count or on `)` directly
after `(`; at the end the count must be exactly zero. -/
def vparenLoop : List Char → ℤ → Option Char → Bool
  | [], k, _ => k == 0
  | c :: r, k, last =>
      if c = '(' then vparenLoop r (k + 1) (some c)
      else if c = ')' then
        (if k - 1 < 0 then false
         else if last = some '(' then false
         else vparenLoop r (k - 1) (some c))
      else vparenLoop r k (some c)

/-- Embedding of `validateParentheses` (src/script.js). -/
def validateParentheses (e : List Char) : Bool := vparenLoop e 0 none

/-- Embedding of `isValidExpression` (src/script.js lines 287-312), check for check:
non-empty; alphabet `[0-9+\-*().\s]` plus the slash; no run of two or more
characters from `{+,*,slash}` and no run of two or more `-`; no leading
`+`, `*` or slash; no trailing binary operator; parentheses; no `..` run;
no `\d+\.\d*\.` pattern. -/
def isValidExpression (e : List Char) : Bool :=
  !e.isEmpty &&
  e.all (fun c => isNumericKey c || isOps4 c || c == '(' || c == ')' ||
    c == '.' || isWsChar c) &&
  !hasPair (fun c => c == '+' || c == '*' || c == '/') e &&
  !hasPair (fun c => c == '-') e &&
  !(match e.head? with
    | some c => c == '+' || c == '*' || c == '/'
    | none => false) &&
  !(match e.getLast? with
    | some c => isOps4 c
    | none => false) &&
  validateParentheses e &&
  !hasPair (fun c => c == '.') e &&
  !hasBadDecimal e

/-! ## `safeEvaluate` -/

/-- The constant `MINIMUM_VALUE_THRESHOLD = 1e-15`. -/
def minThreshold : ℚ := 1 / 10 ^ 15

/-- The `EvaluationOutcome`: what `safeEvaluate` returns — the string `"Error"`
or a number. -/
inductive EvalOutcome where
  | error
  | value (v : JSNum)
deriving DecidableEq

/-- The sanitisation in `safeEvaluate`: strip `\s`, then `×`→`*`, `÷`→`/`. -/
def sanitize (l : List Char) : List Char :=
  (l.filter (fun c => !isWsChar c)).map
    (fun c => if c = '×' then '*' else if c = '÷' then '/' else c)

/-- Embedding of `safeEvaluate` (src/script.js lines 351-381): sanitise, validate
(`"Error"` on failure), evaluate (a thrown exception is caught to
`"Error"`), reject non-finite results, snap magnitudes below
`MINIMUM_VALUE_THRESHOLD` to `0`. -/
def safeEvaluate (raw : List Char) : EvalOutcome :=
  let e := sanitize raw
  if isValidExpression e = false then .error
  else
    match jsEval e with
    | none => .error
    | some (JSNum.finite q) =>
        if |q| < minThreshold then .value (JSNum.finite 0)
        else .value (JSNum.finite q)
    | some _ => .error

/-! ## `Number.prototype.toString` -/

/-- The digit character for `d < 10`. -/
def digitChar (d : ℕ) : Char := Char.ofNat (48 + d)

/-- Decimal digits of a natural number, most significant first (fuel-based;
`natDigits` supplies sufficient fuel). -/
def natDigitsAux : ℕ → ℕ → List Char
  | 0, _ => []
  | fuel + 1, n =>
      if n < 10 then [digitChar n]
      else natDigitsAux fuel (n / 10) ++ [digitChar (n % 10)]

/-- Decimal digit string of a natural number (`natDigits 0 = "0"`). -/
def natDigits (n : ℕ) : List Char := natDigitsAux (n + 1) n

/-- Strip trailing decimal zeros: returns the stripped number and how many
zeros were removed (fuel-based; callers pass fuel `n + 1`). -/
def stripTrailingZeros : ℕ → ℕ → ℕ × ℕ
  | 0, n => (n, 0)
  | fuel + 1, n =>
      if n ≠ 0 ∧ n % 10 = 0 then
        let p := stripTrailingZeros fuel (n / 10)
        (p.1, p.2 + 1)
      else (n, 0)

/-- Multiplicity of the factor `p` in `n` (fuel-based). -/
def countFactor : ℕ → ℕ → ℕ → ℕ
  | 0, _, _ => 0
  | fuel + 1, p, n =>
      if n ≠ 0 ∧ n % p = 0 then countFactor fuel p (n / p) + 1 else 0

/-- Smallest `m` with `q * 10 ^ m` an integer, for a rational whose reduced
denominator is of the form `2 ^ a * 5 ^ b` (any double value is of this
form); for other denominators the digit expansion below truncates. -/
def decExp (q : ℚ) : ℕ :=
  max (countFactor q.den 2 q.den) (countFactor q.den 5 q.den)

/-- ECMA-262 Number-to-String for a positive value: with digits `ds` of
count `k` and decimal exponent `n` (so the value is `s * 10 ^ (n - k)`),
fixed notation when `-6 < n ≤ 21` and exponential notation otherwise. -/
def posRatToString (q : ℚ) : List Char :=
  let m := decExp q
  let n0 := (Rat.floor (q * 10 ^ m)).toNat
  let p := stripTrailingZeros (n0 + 1) n0
  let ds := natDigits p.1
  let k : ℤ := ds.length
  let n : ℤ := k - ((m : ℤ) - (p.2 : ℤ))
  if k ≤ n ∧ n ≤ 21 then ds ++ List.replicate (n - k).toNat '0'
  else if 0 < n ∧ n ≤ 21 then ds.take n.toNat ++ ['.'] ++ ds.drop n.toNat
  else if -6 < n ∧ n ≤ 0 then ['0', '.'] ++ List.replicate (-n).toNat '0' ++ ds
  else
    (ds.take 1 ++ (if ds.length ≤ 1 then [] else ['.'] ++ ds.drop 1)) ++
      (if 0 ≤ n - 1 then ['e', '+'] ++ natDigits (n - 1).toNat
       else ['e', '-'] ++ natDigits (1 - n).toNat)

/-- Model of `Number.prototype.toString` on a `JSNum`. -/
def numberToString : JSNum → List Char
  | .nan => ['N', 'a', 'N']
  | .inf neg =>
      if neg then '-' :: ['I', 'n', 'f', 'i', 'n', 'i', 't', 'y']
      else ['I', 'n', 'f', 'i', 'n', 'i', 't', 'y']
  | .finite q =>
      if q = 0 then ['0']
      else if q < 0 then '-' :: posRatToString (-q)
      else posRatToString q

/-! ## The Expression Builder -/

/-- The calculator's mutable core state: `currentExpression` and
`lastResult` (src/script.js lines 34-35). -/
structure Calculator where
  currentExpression : List Char
  lastResult : Option JSNum
deriving DecidableEq

/-- State at construction: empty expression, no last result. -/
def initialState : Calculator := ⟨[], none⟩

/-- Embedding of `clearCalculator` (src/script.js lines 425-428). -/
def clearCalculator (_ : Calculator) : Calculator := ⟨[], none⟩

/-- Embedding of `handleBackspace` (src/script.js lines 433-438): drop the last
character; clear `lastResult` when the truncated expression equals the
stringified `lastResult` minus its last character. -/
def handleBackspace (s : Calculator) : Calculator :=
  let e := s.currentExpression.dropLast
  let lr :=
    match s.lastResult with
    | some r => if e = (numberToString r).dropLast then none else some r
    | none => none
  ⟨e, lr⟩

/-- Embedding of `calculateResult` (src/script.js lines 443-455): on a non-empty
expression, evaluate; on success store the value and replace the expression
with its string form; on error reset both. -/
def calculateResult (s : Calculator) : Calculator :=
  if s.currentExpression.isEmpty then s
  else
    match safeEvaluate s.currentExpression with
    | .value v => ⟨numberToString v, some v⟩
    | .error => ⟨[], none⟩

/-- The separator class of `canAddDecimal`'s split regex: `+ - * / ( )`. -/
def isSepChar (c : Char) : Bool :=
  c == '+' || c == '-' || c == '*' || c == '/' || c == '(' || c == ')'

/-- Embedding of `canAddDecimal` (src/script.js lines 273-280): the trailing number
segment (after the last operator or parenthesis) has no `.` yet. -/
def canAddDecimal (e : List Char) : Bool :=
  !((e.reverse.takeWhile (fun c => !isSepChar c)).reverse.contains '.')

/-- Embedding of `handleDecimalInput` (src/script.js lines 461-470). -/
def handleDecimalInput (s : Calculator) (lastChar : Option Char) : Calculator :=
  if canAddDecimal s.currentExpression = false then s
  else if s.currentExpression = [] ∨ isOperatorOpt lastChar = true ∨
      lastChar = some '(' then
    ⟨s.currentExpression ++ ['0', '.'], s.lastResult⟩
  else if lastChar ≠ some '.' ∧ isOperatorOpt lastChar = false ∧
      lastChar ≠ some '(' then
    ⟨s.currentExpression ++ ['.'], s.lastResult⟩
  else s

/-- Embedding of `handleNumberInput` (src/script.js lines 477-485): start a fresh
expression when a result is showing and the digit does not continue it. -/
def handleNumberInput (s : Calculator) (d : Char) (lastChar : Option Char) :
    Calculator :=
  if s.lastResult ≠ none ∧ isOperatorOpt lastChar = false ∧
      lastChar ≠ some '.' then
    ⟨[d], none⟩
  else ⟨s.currentExpression ++ [d], s.lastResult⟩

/-- The `'×'→'*'`, `'÷'→'/'` normalisation in `handleOperatorInput`. -/
def normalizeOperator (c : Char) : Char :=
  if c = '×' then '*' else if c = '÷' then '/' else c

/-- Embedding of `handleOperatorInput` (src/script.js lines 492-508): early return for a
leading operator other than `-`; replace a trailing operator; otherwise
append (clearing `lastResult`).  Note that on an empty expression the input
`-` passes the early return but then matches neither branch (the last
character is the empty string), so nothing is appended. -/
def handleOperatorInput (s : Calculator) (c : Char) (lastChar : Option Char) :
    Calculator :=
  let n := normalizeOperator c
  if s.currentExpression = [] ∧ n ≠ '-' then s
  else if isOperatorOpt lastChar = true then
    ⟨s.currentExpression.dropLast ++ [n], s.lastResult⟩
  else if lastChar ≠ none then ⟨s.currentExpression ++ [n], none⟩
  else s

/-- Embedding of `handleParenthesesInput` (src/script.js lines 515-533): implicit `*`
before `(` after a value; `)` only when opens exceed closes and the trailing
character allows it; `lastResult` is cleared unconditionally at the end. -/
def handleParenthesesInput (s : Calculator) (c : Char) (lastChar : Option Char) :
    Calculator :=
  if c = '(' then
    let e1 :=
      if lastChar ≠ none ∧ isOperatorOpt lastChar = false ∧
          lastChar ≠ some '(' then
        s.currentExpression ++ ['*']
      else s.currentExpression
    ⟨e1 ++ ['('], none⟩
  else if c = ')' then
    if s.currentExpression.count ')' < s.currentExpression.count '(' ∧
        lastChar ≠ some '(' ∧ isOperatorOpt lastChar = false then
      ⟨s.currentExpression ++ [')'], none⟩
    else ⟨s.currentExpression, none⟩
  else ⟨s.currentExpression, none⟩

/-- One discrete input token: the control tokens of the `handleInput`
switch, or a single-character token (digit, operator, `.`, parenthesis). -/
inductive Input where
  | clear
  | backspace
  | equal
  | ch (c : Char)
deriving DecidableEq

/-- Embedding of `handleInput` (src/script.js lines 387-420): compute the last character,
then dispatch (`clear` / `backspace` / `equal` / `.` / digit / operator /
parenthesis; anything else is ignored). -/
def handleInput (s : Calculator) (i : Input) : Calculator :=
  let lastChar := s.currentExpression.getLast?
  match i with
  | .clear => clearCalculator s
  | .backspace => handleBackspace s
  | .equal => calculateResult s
  | .ch c =>
      if c = '.' then handleDecimalInput s lastChar
      else if isNumericKey c then handleNumberInput s c lastChar
      else if isOperator c then handleOperatorInput s c lastChar
      else if c = '(' ∨ c = ')' then handleParenthesesInput s c lastChar
      else s

/-- The state after a sequence of input tokens from the initial state. -/
def runCalculator (ts : List Input) : Calculator :=
  ts.foldl handleInput initialState

/-! ## Character-safety lemmas for `numberToString` -/

/-- The characters `Number.prototype.toString` can produce for a finite
value: digits, `.`, sign characters and the exponent marker `e`. -/
def isResultChar (c : Char) : Bool :=
  isNumericKey c || c == '.' || c == '-' || c == '+' || c == 'e'

theorem isNumericKey_digitChar {d : ℕ} (hd : d < 10) :
    isNumericKey (digitChar d) = true := by
  interval_cases d <;> decide

theorem natDigitsAux_chars :
    ∀ fuel n c, c ∈ natDigitsAux fuel n → isNumericKey c = true := by
  intro fuel
  induction fuel with
  | zero => intro n c h; simp [natDigitsAux] at h
  | succ f ih =>
    intro n c h
    by_cases hn : n < 10
    · simp [natDigitsAux, hn] at h
      subst h; exact isNumericKey_digitChar hn
    · simp [natDigitsAux, hn] at h
      rcases h with h | h
      · exact ih _ _ h
      · subst h
        exact isNumericKey_digitChar (Nat.mod_lt n (by norm_num))

theorem natDigits_chars {n : ℕ} {c : Char} (h : c ∈ natDigits n) :
    isNumericKey c = true :=
  natDigitsAux_chars _ _ _ h

theorem isNumericKey_isResultChar {c : Char} (h : isNumericKey c = true) :
    isResultChar c = true := by
  simp [isResultChar, h]

theorem posRatToString_chars (q : ℚ) :
    ∀ c ∈ posRatToString q, isResultChar c = true := by
  intro c hc
  simp only [posRatToString] at hc
  split at hc
  · rcases List.mem_append.mp hc with h | h
    · exact isNumericKey_isResultChar (natDigits_chars h)
    · rw [List.eq_of_mem_replicate h]; decide
  · split at hc
    · rcases List.mem_append.mp hc with h | h
      · rcases List.mem_append.mp h with h2 | h2
        · exact isNumericKey_isResultChar (natDigits_chars (List.take_subset _ _ h2))
        · simp at h2; subst h2; decide
      · exact isNumericKey_isResultChar (natDigits_chars (List.drop_subset _ _ h))
    · split at hc
      · rcases List.mem_append.mp hc with h | h
        · rcases List.mem_append.mp h with h2 | h2
          · simp at h2; rcases h2 with h2 | h2 <;> (subst h2; decide)
          · rw [List.eq_of_mem_replicate h2]; decide
        · exact isNumericKey_isResultChar (natDigits_chars h)
      · rcases List.mem_append.mp hc with h | h
        · rcases List.mem_append.mp h with h2 | h2
          · exact isNumericKey_isResultChar
              (natDigits_chars (List.take_subset _ _ h2))
          · split at h2
            · simp at h2
            · rcases List.mem_append.mp h2 with h3 | h3
              · simp at h3; subst h3; decide
              · exact isNumericKey_isResultChar
                  (natDigits_chars (List.drop_subset _ _ h3))
        · split at h
          · rcases List.mem_append.mp h with h3 | h3
            · simp at h3; rcases h3 with h3 | h3 <;> (subst h3; decide)
            · exact isNumericKey_isResultChar (natDigits_chars h3)
          · rcases List.mem_append.mp h with h3 | h3
            · simp at h3; rcases h3 with h3 | h3 <;> (subst h3; decide)
            · exact isNumericKey_isResultChar (natDigits_chars h3)

theorem numberToString_finite_chars (q : ℚ) :
    ∀ c ∈ numberToString (JSNum.finite q), isResultChar c = true := by
  intro c hc
  simp only [numberToString] at hc
  split at hc
  · simp at hc; subst hc; decide
  · split at hc
    · rcases List.mem_cons.mp hc with h | h
      · subst h; decide
      · exact posRatToString_chars _ _ h
    · exact posRatToString_chars _ _ hc

theorem isResultChar_inExt {c : Char} (h : isResultChar c = true) :
    inExtAlphabet c = true := by
  simp [isResultChar] at h
  rcases h with (((h | h) | h) | h) | h
  · simp [inExtAlphabet, inBaseAlphabet, h]
  all_goals (subst h; decide)

theorem isResultChar_not_paren {c : Char} (h : isResultChar c = true) :
    c ≠ '(' ∧ c ≠ ')' := by
  constructor <;> rintro rfl <;> exact absurd h (by decide)

/-! ## Parenthesis-balance machinery -/

/-- Update of the running open-minus-close balance by one character. -/
def balStep (k : ℤ) (c : Char) : ℤ :=
  k + (if c = '(' then 1 else 0) - (if c = ')' then 1 else 0)

/-- The running balance starting from `k` stays nonnegative along the whole
list (so every prefix has at least as many `(` as `)`). -/
def balOk : List Char → ℤ → Bool
  | [], _ => true
  | c :: r, k => decide (0 ≤ balStep k c) && balOk r (balStep k c)

/-- Net balance contributed by a list. -/
def bal (l : List Char) : ℤ := (l.count '(' : ℤ) - (l.count ')' : ℤ)

theorem bal_cons (c : Char) (r : List Char) :
    bal (c :: r) = balStep 0 c + bal r := by
  by_cases h1 : c = '('
  · subst h1
    simp [bal, balStep, List.count_cons]
    ring
  · by_cases h2 : c = ')'
    · subst h2
      simp [bal, balStep, List.count_cons]
      ring
    · simp [bal, balStep, List.count_cons, h1, h2, beq_iff_eq]

theorem balStep_split (k : ℤ) (c : Char) : balStep k c = k + balStep 0 c := by
  simp [balStep]; ring

theorem balOk_append (l m : List Char) (k : ℤ) :
    balOk (l ++ m) k = (balOk l k && balOk m (k + bal l)) := by
  induction l generalizing k with
  | nil => simp [balOk, bal]
  | cons c r ih =>
    show (decide (0 ≤ balStep k c) && balOk (r ++ m) (balStep k c)) = _
    rw [ih]
    have h2 : balStep k c + bal r = k + bal (c :: r) := by
      rw [bal_cons, balStep_split]; ring
    rw [h2, ← Bool.and_assoc]
    rfl

theorem balOk_nonneg_end :
    ∀ (l : List Char) (k : ℤ), balOk l k = true → 0 ≤ k → 0 ≤ k + bal l := by
  intro l
  induction l with
  | nil => intro k _ hk; simpa [bal] using hk
  | cons c r ih =>
    intro k h _
    simp only [balOk, Bool.and_eq_true, decide_eq_true_eq] at h
    obtain ⟨h1, h2⟩ := h
    have h3 := ih (balStep k c) h2 h1
    have h4 : balStep k c = k + balStep 0 c := balStep_split k c
    rw [bal_cons]
    linarith

theorem balOk_count {l : List Char} (h : balOk l 0 = true) :
    (l.count ')' : ℤ) ≤ (l.count '(' : ℤ) := by
  have := balOk_nonneg_end l 0 h le_rfl
  simp [bal] at this
  linarith

theorem balOk_dropLast {l : List Char} (h : balOk l 0 = true) :
    balOk l.dropLast 0 = true := by
  induction l using List.reverseRecOn with
  | nil => rfl
  | append_singleton r c _ =>
    rw [List.dropLast_concat]
    rw [balOk_append] at h
    simp only [Bool.and_eq_true] at h
    exact h.1

theorem balOk_no_paren :
    ∀ (m : List Char), (∀ c ∈ m, c ≠ '(' ∧ c ≠ ')') →
      ∀ k : ℤ, 0 ≤ k → balOk m k = true := by
  intro m
  induction m with
  | nil => intro _ k _; rfl
  | cons c r ih =>
    intro hm k hk
    obtain ⟨h1, h2⟩ := hm c (List.mem_cons_self c r)
    have hstep : balStep k c = k := by simp [balStep, h1, h2]
    simp only [balOk, hstep, Bool.and_eq_true, decide_eq_true_eq]
    exact ⟨hk, ih (fun x hx => hm x (List.mem_cons_of_mem c hx)) k hk⟩

theorem balOk_append_no_paren {l : List Char} (m : List Char)
    (hl : balOk l 0 = true) (hm : ∀ c ∈ m, c ≠ '(' ∧ c ≠ ')') :
    balOk (l ++ m) 0 = true := by
  rw [balOk_append, Bool.and_eq_true]
  refine ⟨hl, ?_⟩
  have hb := balOk_nonneg_end l 0 hl le_rfl
  exact balOk_no_paren m hm (0 + bal l) (by linarith)

theorem balOk_singleton (k : ℤ) (c : Char) :
    balOk [c] k = decide (0 ≤ balStep k c) := by
  simp [balOk]

theorem balOk_append_char {l : List Char} {c : Char} (hl : balOk l 0 = true)
    (hc : c ≠ ')' ∨ (l.count ')' : ℤ) < (l.count '(' : ℤ)) :
    balOk (l ++ [c]) 0 = true := by
  rw [balOk_append, Bool.and_eq_true]
  refine ⟨hl, ?_⟩
  have hb : 0 ≤ bal l := by
    have := balOk_nonneg_end l 0 hl le_rfl; linarith
  rw [balOk_singleton, decide_eq_true_eq]
  unfold balStep
  rcases hc with hc | hc
  · rw [if_neg hc]
    split_ifs <;> linarith
  · have h1 : 1 ≤ bal l := by simp only [bal] at hb ⊢; linarith
    split_ifs <;> linarith

/-! ## The reachable-state invariant -/

/-- The function `safeEvaluate` never returns a non-finite number: the `isFinite` check
precedes both `return` sites. -/
theorem safeEvaluate_value_finite (e : List Char) (v : JSNum)
    (h : safeEvaluate e = .value v) : ∃ q, v = JSNum.finite q := by
  simp only [safeEvaluate] at h
  by_cases hv : isValidExpression (sanitize e) = false
  · rw [if_pos hv] at h; exact absurd h (by simp)
  · rw [if_neg hv] at h
    cases hj : jsEval (sanitize e) with
    | none => rw [hj] at h; exact absurd h (by simp)
    | some r =>
      rw [hj] at h
      cases r with
      | finite q =>
        have h2 : (if |q| < minThreshold then EvalOutcome.value (JSNum.finite 0)
            else EvalOutcome.value (JSNum.finite q)) = EvalOutcome.value v := h
        by_cases hq : |q| < minThreshold
        · rw [if_pos hq] at h2
          exact ⟨0, by injection h2 with h3; exact h3.symm⟩
        · rw [if_neg hq] at h2
          exact ⟨q, by injection h2 with h3; exact h3.symm⟩
      | inf b => exact absurd h (by simp)
      | nan => exact absurd h (by simp)

/-- The invariant satisfied by every state reachable from `initialState`:
the expression uses only alphabet characters (plus `e` from stringified
exponential results), its parenthesis balance never dips negative on any
prefix, and any stored `lastResult` is a finite number. -/
def StateInv (s : Calculator) : Prop :=
  (∀ c ∈ s.currentExpression, inExtAlphabet c = true) ∧
  balOk s.currentExpression 0 = true ∧
  (s.lastResult = none ∨ ∃ q, s.lastResult = some (JSNum.finite q))

theorem isNumericKey_inExt {c : Char} (h : isNumericKey c = true) :
    inExtAlphabet c = true := by
  simp [inExtAlphabet, inBaseAlphabet, h]

theorem isNumericKey_not_paren {c : Char} (h : isNumericKey c = true) :
    c ≠ '(' ∧ c ≠ ')' := by
  constructor <;> rintro rfl <;> exact absurd h (by decide)

/-- The four possible outputs of operator normalisation on an operator. -/
theorem normalizeOperator_cases {c : Char} (h : isOperator c = true) :
    normalizeOperator c = '+' ∨ normalizeOperator c = '-' ∨
      normalizeOperator c = '*' ∨ normalizeOperator c = '/' := by
  simp [isOperator] at h
  rcases h with ((((h | h) | h) | h) | h) | h <;> subst h <;> simp [normalizeOperator]

theorem normalized_inExt {c : Char} (h : isOperator c = true) :
    inExtAlphabet (normalizeOperator c) = true := by
  rcases normalizeOperator_cases h with h2 | h2 | h2 | h2 <;> rw [h2] <;> decide

theorem normalized_not_paren {c : Char} (h : isOperator c = true) :
    normalizeOperator c ≠ '(' ∧ normalizeOperator c ≠ ')' := by
  rcases normalizeOperator_cases h with h2 | h2 | h2 | h2 <;> rw [h2] <;> decide

theorem handleInput_preserves (s : Calculator) (i : Input) (hs : StateInv s) :
    StateInv (handleInput s i) := by
  obtain ⟨hA, hB, hR⟩ := hs
  have hInit : StateInv ⟨[], none⟩ :=
    ⟨fun c hc => absurd hc (List.not_mem_nil c), rfl, Or.inl rfl⟩
  cases i with
  | clear => exact hInit
  | backspace =>
    refine ⟨fun c hc => hA c ((List.dropLast_sublist _).subset hc),
      balOk_dropLast hB, ?_⟩
    simp only [handleInput, handleBackspace]
    cases hres : s.lastResult with
    | none => exact Or.inl rfl
    | some r =>
      dsimp only
      split
      · exact Or.inl rfl
      · rw [hres] at hR
        exact hR
  | equal =>
    simp only [handleInput, calculateResult]
    split
    · exact ⟨hA, hB, hR⟩
    · cases hse : safeEvaluate s.currentExpression with
      | error => exact hInit
      | value v =>
        obtain ⟨q, rfl⟩ := safeEvaluate_value_finite _ _ hse
        refine ⟨?_, ?_, Or.inr ⟨q, rfl⟩⟩
        · exact fun c hc =>
            isResultChar_inExt (numberToString_finite_chars q c hc)
        · exact balOk_no_paren _
            (fun c hc => isResultChar_not_paren (numberToString_finite_chars q c hc))
            0 le_rfl
  | ch c =>
    simp only [handleInput]
    by_cases hdot : c = '.'
    · rw [if_pos hdot]
      simp only [handleDecimalInput]
      split
      · exact ⟨hA, hB, hR⟩
      · split
        · refine ⟨?_, balOk_append_no_paren _ hB (by decide), hR⟩
          intro x hx
          rcases List.mem_append.mp hx with h | h
          · exact hA x h
          · simp at h; rcases h with h | h <;> (subst h; decide)
        · split
          · refine ⟨?_, balOk_append_no_paren _ hB (by decide), hR⟩
            intro x hx
            rcases List.mem_append.mp hx with h | h
            · exact hA x h
            · simp at h; subst h; decide
          · exact ⟨hA, hB, hR⟩
    · rw [if_neg hdot]
      by_cases hnum : isNumericKey c = true
      · rw [if_pos hnum]
        simp only [handleNumberInput]
        split
        · refine ⟨?_, ?_, Or.inl rfl⟩
          · intro x hx
            simp at hx; subst hx
            exact isNumericKey_inExt hnum
          · have := isNumericKey_not_paren hnum
            exact balOk_no_paren [c] (by simpa using this) 0 le_rfl
        · refine ⟨?_, ?_, hR⟩
          · intro x hx
            rcases List.mem_append.mp hx with h | h
            · exact hA x h
            · simp at h; subst h; exact isNumericKey_inExt hnum
          · exact balOk_append_no_paren _ hB
              (by simpa using isNumericKey_not_paren hnum)
      · rw [if_neg hnum]
        by_cases hop : isOperator c = true
        · rw [if_pos hop]
          simp only [handleOperatorInput]
          split
          · exact ⟨hA, hB, hR⟩
          · split
            · refine ⟨?_, ?_, hR⟩
              · intro x hx
                rcases List.mem_append.mp hx with h | h
                · exact hA x ((List.dropLast_sublist _).subset h)
                · simp at h; subst h; exact normalized_inExt hop
              · exact balOk_append_no_paren _ (balOk_dropLast hB)
                  (by simpa using normalized_not_paren hop)
            · split
              · refine ⟨?_, ?_, Or.inl rfl⟩
                · intro x hx
                  rcases List.mem_append.mp hx with h | h
                  · exact hA x h
                  · simp at h; subst h; exact normalized_inExt hop
                · exact balOk_append_no_paren _ hB
                    (by simpa using normalized_not_paren hop)
              · exact ⟨hA, hB, hR⟩
        · rw [if_neg hop]
          by_cases hpar : c = '(' ∨ c = ')'
          · rw [if_pos hpar]
            simp only [handleParenthesesInput]
            by_cases hlp : c = '('
            · rw [if_pos hlp]
              split
              · refine ⟨?_, ?_, Or.inl rfl⟩
                · intro x hx
                  rcases List.mem_append.mp hx with h | h
                  · rcases List.mem_append.mp h with h2 | h2
                    · exact hA x h2
                    · simp at h2; subst h2; decide
                  · simp at h; subst h; decide
                · exact balOk_append_char
                    (balOk_append_no_paren _ hB (by decide)) (Or.inl (by decide))
              · refine ⟨?_, balOk_append_char hB (Or.inl (by decide)), Or.inl rfl⟩
                intro x hx
                rcases List.mem_append.mp hx with h | h
                · exact hA x h
                · simp at h; subst h; decide
            · rw [if_neg hlp]
              have hrp : c = ')' := hpar.resolve_left hlp
              rw [if_pos hrp]
              split
              · rename_i hcond
                refine ⟨?_, ?_, Or.inl rfl⟩
                · intro x hx
                  rcases List.mem_append.mp hx with h | h
                  · exact hA x h
                  · simp at h; subst h; decide
                · exact balOk_append_char hB (Or.inr (by exact_mod_cast hcond.1))
              · exact ⟨hA, hB, Or.inl rfl⟩
          · rw [if_neg hpar]
            exact ⟨hA, hB, hR⟩

theorem runCalculator_inv (ts : List Input) : StateInv (runCalculator ts) := by
  suffices h : ∀ s, StateInv s → StateInv (ts.foldl handleInput s) by
    exact h initialState
      ⟨fun c hc => absurd hc (List.not_mem_nil c), rfl, Or.inl rfl⟩
  induction ts with
  | nil => exact fun s hs => hs
  | cons t ts ih => exact fun s hs => ih _ (handleInput_preserves s t hs)

/-! ## Dispatch lemmas for `handleInput` -/

theorem isOperator_facts {c : Char} (h : isOperator c = true) :
    c ≠ '.' ∧ isNumericKey c = false ∧ c ≠ '(' ∧ c ≠ ')' := by
  simp [isOperator] at h
  rcases h with ((((h | h) | h) | h) | h) | h <;> subst h <;>
    exact ⟨by decide, by decide, by decide, by decide⟩

theorem handleInput_dot (s : Calculator) :
    handleInput s (Input.ch '.') =
      handleDecimalInput s s.currentExpression.getLast? := by
  simp [handleInput]

theorem handleInput_digit (s : Calculator) (d : Char)
    (hd : isNumericKey d = true) :
    handleInput s (Input.ch d) =
      handleNumberInput s d s.currentExpression.getLast? := by
  have h1 : ¬ d = '.' := by rintro rfl; exact absurd hd (by decide)
  simp only [handleInput]
  rw [if_neg h1, if_pos hd]

theorem handleInput_op (s : Calculator) (c : Char)
    (hop : isOperator c = true) :
    handleInput s (Input.ch c) =
      handleOperatorInput s c s.currentExpression.getLast? := by
  obtain ⟨h1, h2, _, _⟩ := isOperator_facts hop
  simp only [handleInput]
  rw [if_neg h1]
  rw [if_neg (by simp [h2])]
  rw [if_pos hop]

theorem handleInput_paren (s : Calculator) (c : Char)
    (hc : c = '(' ∨ c = ')') :
    handleInput s (Input.ch c) =
      handleParenthesesInput s c s.currentExpression.getLast? := by
  have h1 : ¬ c = '.' := by rcases hc with rfl | rfl <;> decide
  have h2 : isNumericKey c = false := by rcases hc with rfl | rfl <;> decide
  have h3 : isOperator c = false := by rcases hc with rfl | rfl <;> decide
  simp only [handleInput]
  rw [if_neg h1, if_neg (by simp [h2]), if_neg (by simp [h3]), if_pos hc]

/-! ## Claim theorems -/

section ClaimTheorems

/- The Batteries `Rat` arithmetic operations are `@[irreducible]`, which
blocks `decide` on concrete rational computations; restore their default
reducibility locally for the concrete evaluations below. -/
attribute [local semireducible] Rat.mul Rat.add Rat.sub Rat.inv Rat.ofScientific

/-- C2: the evaluator accepts an operator immediately followed by a unary
minus but rejects any run of two or more `-`: `evaluate("5*-3")` is the
finite value `-15`, and `evaluate("3--2")` is the Error outcome. -/
theorem c2_mixed_operator_pair_policy :
    safeEvaluate ['5', '*', '-', '3'] = EvalOutcome.value (JSNum.finite (-15)) ∧
    safeEvaluate ['3', '-', '-', '2'] = EvalOutcome.error := by
  exact ⟨by decide, by decide⟩

/-- C6: an expression whose arithmetic value is non-finite evaluates to the
Error outcome; `safeEvaluate` never hands a non-finite number to its caller;
in particular `evaluate("5/0")` is Error. -/
theorem c6_nonfinite_is_error :
    (∀ (e : List Char) (r : JSNum), jsEval (sanitize e) = some r →
        r.isFinite = false → safeEvaluate e = EvalOutcome.error) ∧
    (∀ (e : List Char) (v : JSNum), safeEvaluate e = EvalOutcome.value v →
        v.isFinite = true) ∧
    safeEvaluate ['5', '/', '0'] = EvalOutcome.error := by
  refine ⟨?_, ?_, by decide⟩
  · intro e r hj hf
    simp only [safeEvaluate]
    split
    · rfl
    · rw [hj]
      cases r with
      | finite q => exact absurd hf (by simp [JSNum.isFinite])
      | inf b => rfl
      | nan => rfl
  · intro e v hv
    obtain ⟨q, rfl⟩ := safeEvaluate_value_finite e v hv
    rfl

/-- Witness for C6: `5/0` evaluates (in the model) to `Infinity`, which is
non-finite, so `safeEvaluate` returns the Error outcome. -/
theorem c6_witness : safeEvaluate ['5', '/', '0'] = EvalOutcome.error :=
  c6_nonfinite_is_error.1 ['5', '/', '0'] (JSNum.inf false) (by decide) (by decide)

/-- C9: a valid expression whose computed value is finite with magnitude
strictly below the `1e-15` threshold evaluates to exactly `0`. -/
theorem c9_tiny_snaps_to_zero (e : List Char) (q : ℚ)
    (hval : isValidExpression (sanitize e) = true)
    (hev : jsEval (sanitize e) = some (JSNum.finite q))
    (hsmall : |q| < minThreshold) :
    safeEvaluate e = EvalOutcome.value (JSNum.finite 0) := by
  simp only [safeEvaluate]
  rw [if_neg (by simp [hval]), hev]
  show (if |q| < minThreshold then EvalOutcome.value (JSNum.finite 0)
      else EvalOutcome.value (JSNum.finite q)) = EvalOutcome.value (JSNum.finite 0)
  rw [if_pos hsmall]

/-- Witness for C9: `0.0000000000000001` is `1e-16 < 1e-15` and evaluates
to exactly `0`. -/
theorem c9_witness :
    safeEvaluate ['0', '.', '0', '0', '0', '0', '0', '0', '0', '0', '0', '0',
        '0', '0', '0', '0', '0', '1'] = EvalOutcome.value (JSNum.finite 0) :=
  c9_tiny_snaps_to_zero _ (1 / 10 ^ 16) (by decide) (by decide) (by decide)

/-- C7: at every state reachable by input tokens from the initial state, the
number of `)` in the expression is at most the number of `(`. -/
theorem c7_paren_count_invariant (ts : List Input) :
    (runCalculator ts).currentExpression.count ')' ≤
      (runCalculator ts).currentExpression.count '(' := by
  have h := balOk_count (runCalculator_inv ts).2.1
  exact_mod_cast h

/-- Witness for C7 at a concrete token sequence. -/
theorem c7_witness :
    (runCalculator [Input.ch '(', Input.ch '5', Input.ch ')']).currentExpression.count ')' ≤
      (runCalculator [Input.ch '(', Input.ch '5', Input.ch ')']).currentExpression.count '(' :=
  c7_paren_count_invariant [Input.ch '(', Input.ch '5', Input.ch ')']

/-- C10: after any token sequence from the initial state, `lastResult` is
either absent or a finite number (never `NaN`, an infinity, or an error
marker). -/
theorem c10_lastResult_finite (ts : List Input) :
    (runCalculator ts).lastResult = none ∨
      ∃ q, (runCalculator ts).lastResult = some (JSNum.finite q) :=
  (runCalculator_inv ts).2.2

/-- Witness for C10 at a concrete token sequence. -/
theorem c10_witness :
    (runCalculator [Input.ch '5', Input.equal]).lastResult = none ∨
      ∃ q, (runCalculator [Input.ch '5', Input.equal]).lastResult =
        some (JSNum.finite q) :=
  c10_lastResult_finite [Input.ch '5', Input.equal]

/-- C5 counterexample: building `1/100000000` and pressing equal stores the
stringified result `1e-8`, whose character `e` is outside the alphabet
`{0-9, +, -, *, /, (, ), .}` — so the claimed alphabet invariant fails. -/
theorem c5_counterexample :
    (runCalculator [Input.ch '1', Input.ch '/', Input.ch '1', Input.ch '0',
        Input.ch '0', Input.ch '0', Input.ch '0', Input.ch '0', Input.ch '0',
        Input.ch '0', Input.ch '0', Input.equal]).currentExpression =
      ['1', 'e', '-', '8'] ∧
    ((runCalculator [Input.ch '1', Input.ch '/', Input.ch '1', Input.ch '0',
        Input.ch '0', Input.ch '0', Input.ch '0', Input.ch '0', Input.ch '0',
        Input.ch '0', Input.ch '0', Input.equal]).currentExpression.all
      inBaseAlphabet) = false := by
  exact ⟨by decide, by decide⟩

/-- C5 (amended): after every token sequence the expression only contains
characters of the alphabet `{0-9, +, -, *, /, (, ), .}` extended with the
`e` of exponential notation produced by stringified results. -/
theorem c5_alphabet_invariant (ts : List Input) :
    ((runCalculator ts).currentExpression.all inExtAlphabet) = true := by
  rw [List.all_eq_true]
  exact fun c hc => (runCalculator_inv ts).1 c hc

/-- Witness for C5 (amended) at a concrete token sequence. -/
theorem c5_witness :
    ((runCalculator [Input.ch '5', Input.ch '+', Input.ch '2']).currentExpression.all
      inExtAlphabet) = true :=
  c5_alphabet_invariant [Input.ch '5', Input.ch '+', Input.ch '2']

/-- C1 counterexample: from the reachable state reached by `5`, `equal`
(expression `"5"`, last result `5`), the token `)` is rejected (the
expression is unchanged), yet the state changes: `lastResult` is cleared by
the unconditional assignment at the end of `handleParenthesesInput`. -/
theorem c1_counterexample :
    runCalculator [Input.ch '5', Input.equal] =
      ⟨['5'], some (JSNum.finite 5)⟩ ∧
    handleInput ⟨['5'], some (JSNum.finite 5)⟩ (Input.ch ')') = ⟨['5'], none⟩ ∧
    (⟨['5'], some (JSNum.finite 5)⟩ : Calculator) ≠ ⟨['5'], none⟩ := by
  exact ⟨by decide, by decide, by decide⟩

/-- C1 (amended): a rejected operator token (any operator on an empty
expression) and a rejected decimal point leave the whole state unchanged;
a rejected `)` leaves the expression unchanged but always clears
`lastResult`. -/
theorem c1_rejected_edits (s : Calculator) (c : Char) :
    (isOperator c = true → s.currentExpression = [] →
        handleInput s (Input.ch c) = s) ∧
    (c = ')' →
      (¬ (s.currentExpression.count ')' < s.currentExpression.count '(') ∨
          s.currentExpression.getLast? = some '(' ∨
          isOperatorOpt s.currentExpression.getLast? = true) →
      handleInput s (Input.ch c) = ⟨s.currentExpression, none⟩) ∧
    (canAddDecimal s.currentExpression = false →
        handleInput s (Input.ch '.') = s) := by
  refine ⟨?_, ?_, ?_⟩
  · intro hop hemp
    have hlast : s.currentExpression.getLast? = none := by rw [hemp]; rfl
    rw [handleInput_op s c hop]
    by_cases hn : normalizeOperator c = '-'
    · simp only [handleOperatorInput, hlast, hemp]
      simp [isOperatorOpt, hn]
    · simp only [handleOperatorInput, hlast, hemp]
      simp [isOperatorOpt, hn]
  · intro hc hrej
    subst hc
    rw [handleInput_paren s ')' (Or.inr rfl)]
    simp only [handleParenthesesInput]
    rw [if_neg (by decide : ¬ (')' : Char) = '('), if_pos trivial]
    have hno : ¬ (s.currentExpression.count ')' < s.currentExpression.count '(' ∧
        s.currentExpression.getLast? ≠ some '(' ∧
        isOperatorOpt s.currentExpression.getLast? = false) := by
      rintro ⟨ha, hb, hc2⟩
      rcases hrej with h | h | h
      · exact h ha
      · exact hb h
      · rw [h] at hc2; exact Bool.noConfusion hc2
    rw [if_neg hno]
  · intro hdec
    rw [handleInput_dot]
    simp only [handleDecimalInput]
    rw [if_pos hdec]

/-- Witness for C1 (amended): the rejected `)` of the counterexample state
leaves the expression `"5"` unchanged and clears `lastResult`. -/
theorem c1_witness :
    handleInput ⟨['5'], some (JSNum.finite 5)⟩ (Input.ch ')') =
      ⟨['5'], none⟩ :=
  (c1_rejected_edits ⟨['5'], some (JSNum.finite 5)⟩ ')').2.1 rfl
    (Or.inl (by decide))

/-- C3: contrary to the claim (and to the code's own comment "except minus
for negative numbers"), the operator `-` on the empty initial expression is
a no-op — the guard lets `-` through but neither branch of
`handleOperatorInput` fires when the last character is the empty string —
and every other operator on the empty expression is a no-op as claimed. -/
theorem c3_minus_on_empty_is_noop :
    handleInput initialState (Input.ch '-') = initialState ∧
    handleInput initialState (Input.ch '+') = initialState ∧
    handleInput initialState (Input.ch '*') = initialState ∧
    handleInput initialState (Input.ch '/') = initialState := by
  exact ⟨by decide, by decide, by decide, by decide⟩

/-- C4 counterexample: the token sequence `5`, `*`, `-`, `3` produces the
expression `"5-3"` — the trailing `*` is replaced by `-` — and not the
claimed `"5*-3"`. -/
theorem c4_counterexample :
    runCalculator [Input.ch '5', Input.ch '*', Input.ch '-', Input.ch '3'] =
      ⟨['5', '-', '3'], none⟩ ∧
    (['5', '-', '3'] : List Char) ≠ ['5', '*', '-', '3'] := by
  exact ⟨by decide, by decide⟩

/-- C4 (amended): when the expression ends in an operator, an operator
token replaces the trailing operator with the (normalised) new one, keeping
`lastResult`; consequently `5`, `*`, `-`, `3` yields `"5-3"`, not a negated
operand `"5*-3"`. -/
theorem c4_operator_replacement (s : Calculator) (c : Char)
    (hop : isOperator c = true)
    (hlast : isOperatorOpt s.currentExpression.getLast? = true) :
    handleInput s (Input.ch c) =
      ⟨s.currentExpression.dropLast ++ [normalizeOperator c], s.lastResult⟩ := by
  rw [handleInput_op s c hop]
  have hne : s.currentExpression ≠ [] := by
    intro h
    rw [h] at hlast
    exact Bool.noConfusion hlast
  simp only [handleOperatorInput]
  rw [if_neg (by rintro ⟨h1, _⟩; exact hne h1)]
  rw [if_pos hlast]

/-- Witness for C4 (amended): from expression `"5*"`, the token `-`
replaces the `*`, giving `"5-"`. -/
theorem c4_witness :
    handleInput ⟨['5', '*'], none⟩ (Input.ch '-') = ⟨['5', '-'], none⟩ :=
  (c4_operator_replacement ⟨['5', '*'], none⟩ '-' (by decide)
    (by decide)).trans (by decide)

/-- C8: when `equal` succeeds with value `v`, the expression becomes the
canonical string form of `v`; a subsequent digit token — when the trailing
character is neither an operator nor `.` — replaces the expression with
just that digit and clears `lastResult`. -/
theorem c8_result_roundtrip (s : Calculator) (v : JSNum) (d : Char)
    (hval : safeEvaluate s.currentExpression = EvalOutcome.value v)
    (hne : s.currentExpression ≠ [])
    (hd : isNumericKey d = true)
    (hop : isOperatorOpt (handleInput s Input.equal).currentExpression.getLast? = false)
    (hdot : (handleInput s Input.equal).currentExpression.getLast? ≠ some '.') :
    (handleInput s Input.equal).currentExpression = numberToString v ∧
    handleInput (handleInput s Input.equal) (Input.ch d) = ⟨[d], none⟩ := by
  have heq : handleInput s Input.equal = ⟨numberToString v, some v⟩ := by
    show calculateResult s = _
    simp only [calculateResult]
    rw [if_neg (by simpa using hne), hval]
  refine ⟨by rw [heq], ?_⟩
  rw [heq] at hop hdot ⊢
  rw [handleInput_digit _ d hd]
  simp only [handleNumberInput]
  rw [if_pos ⟨by simp, hop, hdot⟩]

/-- Witness for C8: evaluating `"5"` gives expression `"5"` and result `5`;
a following `7` starts the fresh expression `"7"` with no stored result. -/
theorem c8_witness :
    (handleInput ⟨['5'], none⟩ Input.equal).currentExpression =
      numberToString (JSNum.finite 5) ∧
    handleInput (handleInput ⟨['5'], none⟩ Input.equal) (Input.ch '7') =
      ⟨['7'], none⟩ :=
  c8_result_roundtrip ⟨['5'], none⟩ (JSNum.finite 5) '7' (by decide)
    (by decide) (by decide) (by decide) (by decide)

end ClaimTheorems
